import Mathlib

/-!
Verification of src/src/ripple/app/websocket/WSDoor.cpp.

The file embeds the listener lifecycle of WSDoorImp as trace-producing
functions. Each observable action of the C++ code (log lines, acquiring
and releasing m_endpointLock, reading or writing the m_endpoint shared
pointer, the blocking serve calls, the call to stopped(), the call to
signalThreadShouldExit()) becomes one Event. The outcome of each blocking
serve call (m_endpoint->listen at line 94, then m_endpoint->get_io_service().run()
at line 106 inside the retry loop) is an input: a list of ServeOutcome
values, consumed in order. A run that never escapes its retry loop within
the supplied outcomes is modelled as none.
-/

/-- Configuration record. Fields name, ip, port and allow_admin are the
ones WSDoor.cpp reads from HTTP::Port (lines 76-79). The field tls stands
for the remaining transport settings of the config record, which WSDoor.cpp
never reads. -/
structure Port where
  name : String
  ip : String
  port : Nat
  allow_admin : Bool
  tls : String
deriving DecidableEq, Repr

/-- Outcome of one blocking serve call: it either returns cleanly or it
raises a websocketpp exception carrying a message. -/
inductive ServeOutcome where
  | ok
  | raise (msg : String)
deriving DecidableEq, Repr

/-- Observable actions of WSDoorImp::run and WSDoorImp::onStop. -/
inductive Event where
  | logInfo (msg : String)
  | logWarning (msg : String)
  | lockAcquire
  | lockRelease
  | endpointWrite (live : Bool)
  | endpointRead
  | listenCall (ip : String) (port : Nat)
  | ioServiceRun
  | endpointStopCall
  | stopped
  | signalThreadShouldExit
deriving DecidableEq, Repr

/-- How run() terminates: a normal return, or an uncaught exception
propagating out of run(). -/
inductive RunExit where
  | returned
  | escaped
deriving DecidableEq, Repr

/-- The warning text logged at lines 98 and 111: the literal prefix
followed by e.what(). -/
def wsExcMsg (m : String) : String := "websocketpp exception: " ++ m

/-- The informational startup line of lines 76-79. -/
def startupMsg (p : Port) : String :=
  "Websocket: \x27" ++ p.name ++ "\x27 listening on " ++ p.ip ++ ":"
    ++ toString p.port ++ (cond p.allow_admin "(Admin)" "")

/-- The retry loop of lines 101-113: call get_io_service().run(); break on a
clean return; on a websocketpp exception log a warning and loop again.
Returns none when the supplied outcomes never contain a clean return, i.e.
the loop does not terminate within them. -/
def retryLoop : List ServeOutcome → Option (List Event)
  | [] => none
  | ServeOutcome.ok :: _ => some [Event.ioServiceRun]
  | ServeOutcome.raise m :: rest =>
      (retryLoop rest).map fun tr =>
        Event.ioServiceRun :: Event.logWarning (wsExcMsg m) :: tr

/-- Lines 116-122: reacquire the lock, reset m_endpoint, release, then
call stopped(). -/
def teardownEvents : List Event :=
  [Event.lockAcquire, Event.endpointWrite false, Event.lockRelease,
    Event.stopped]

/-- WSDoorImp::run (lines 74-123). Inputs: the config, whether the
WSServerHandler construction at lines 81-83 raises, whether the endpoint
construction at line 88 raises (inside the lock scope, which is released
during unwinding), the outcomes of the successive blocking serve calls
(the head is the outcome of m_endpoint->listen at line 94; the tail feeds
the retry loop), and the thread-should-exit flag, which run() never
consults. Returns the event trace paired with how run() ended, or none
when run() never terminates within the supplied outcomes. -/
def wsRun (p : Port) (handlerRaises endpointCtorRaises : Bool)
    (outcomes : List ServeOutcome) (threadShouldExit : Bool) :
    Option (List Event × RunExit) :=
  if handlerRaises then
    some ([Event.logInfo (startupMsg p)], RunExit.escaped)
  else if endpointCtorRaises then
    some ([Event.logInfo (startupMsg p), Event.lockAcquire,
      Event.lockRelease], RunExit.escaped)
  else
    match outcomes with
    | [] => none
    | ServeOutcome.ok :: _ =>
        some (Event.logInfo (startupMsg p) :: Event.lockAcquire ::
          Event.endpointWrite true :: Event.lockRelease ::
          Event.listenCall p.ip p.port :: teardownEvents, RunExit.returned)
    | ServeOutcome.raise m :: rest =>
        (retryLoop rest).map fun tr =>
          (Event.logInfo (startupMsg p) :: Event.lockAcquire ::
            Event.endpointWrite true :: Event.lockRelease ::
            Event.listenCall p.ip p.port :: Event.logWarning (wsExcMsg m) ::
            (tr ++ teardownEvents), RunExit.returned)

/-- WSDoorImp::onStop (lines 125-142). Input: whether m_endpoint is
non-null at the moment of the locked copy. -/
def wsOnStop (endpointLive : Bool) : List Event :=
  [Event.lockAcquire, Event.endpointRead, Event.lockRelease]
    ++ (if endpointLive then [Event.endpointStopCall] else [])
    ++ [Event.signalThreadShouldExit]

/-- The WSDoorImp object built by make_WSDoor; it stores the config. -/
structure WSDoorImp where
  port_ : Port
deriving DecidableEq, Repr

/-- make_WSDoor (lines 154-169): run the constructor inside try/catch; any
exception yields the still-null unique pointer. The input is the outcome of
the WSDoorImp construction. -/
def make_WSDoor (ctorResult : Except String WSDoorImp) : Option WSDoorImp :=
  match ctorResult with
  | Except.ok door => some door
  | Except.error _ => none

/-! Trace observers. -/

/-- Lock depth transition: one step of tracking how many times the
(recursive) m_endpointLock is held. -/
def lockStep (d : Nat) : Event → Nat
  | Event.lockAcquire => d + 1
  | Event.lockRelease => d - 1
  | _ => d

/-- Events that read the m_endpoint member: the locked copy in onStop, and
the two serve calls, each of which dereferences m_endpoint. -/
def readsEndpoint : Event → Bool
  | Event.endpointRead => true
  | Event.listenCall _ _ => true
  | Event.ioServiceRun => true
  | _ => false

/-- Events that write the m_endpoint member. -/
def writesEndpoint : Event → Bool
  | Event.endpointWrite _ => true
  | _ => false

def accessesEndpoint (e : Event) : Bool := readsEndpoint e || writesEndpoint e

/-- The two blocking serve calls. -/
def isServeCall : Event → Bool
  | Event.listenCall _ _ => true
  | Event.ioServiceRun => true
  | _ => false

def isLog : Event → Bool
  | Event.logInfo _ => true
  | Event.logWarning _ => true
  | _ => false

/-- Scan a trace tracking lock depth; every event satisfying pred must
occur at a depth accepted by ok. -/
def checkDepthAux (pred : Event → Bool) (ok : Nat → Bool) :
    Nat → List Event → Bool
  | _, [] => true
  | d, e :: tr => (!pred e || ok d) && checkDepthAux pred ok (lockStep d e) tr

/-- Every read and write of m_endpoint happens while the lock is held. -/
def accessesLocked (tr : List Event) : Bool :=
  checkDepthAux accessesEndpoint (fun d => decide (0 < d)) 0 tr

/-- Every write of m_endpoint happens while the lock is held. -/
def writesLocked (tr : List Event) : Bool :=
  checkDepthAux writesEndpoint (fun d => decide (0 < d)) 0 tr

/-- Every access of m_endpoint other than the serve calls happens while
the lock is held. -/
def nonServeAccessesLocked (tr : List Event) : Bool :=
  checkDepthAux (fun e => accessesEndpoint e && !isServeCall e)
    (fun d => decide (0 < d)) 0 tr

/-- Every serve call happens with the lock not held. -/
def serveCallsOutsideLock (tr : List Event) : Bool :=
  checkDepthAux isServeCall (fun d => decide (d = 0)) 0 tr

/-- The endpoint stop call of onStop happens with the lock not held. -/
def stopCallOutsideLock (tr : List Event) : Bool :=
  checkDepthAux (fun e => decide (e = Event.endpointStopCall))
    (fun d => decide (d = 0)) 0 tr

/-- The messages of the warning-level log lines of a trace, in order. -/
def warningMsgs : List Event → List String
  | [] => []
  | Event.logWarning m :: tr => m :: warningMsgs tr
  | _ :: tr => warningMsgs tr

/-- Number of blocking serve calls in a trace. -/
def serveCallCount (tr : List Event) : Nat := tr.countP isServeCall

/-- Number of stopped-acknowledgments in a trace. -/
def stoppedCount (tr : List Event) : Nat :=
  tr.countP (fun e => decide (e = Event.stopped))

/-- The trace produced by the retry loop when the first N outcomes raise
with the given messages and the next one is clean. -/
def loopTrace : List String → List Event
  | [] => [Event.ioServiceRun]
  | m :: ms => Event.ioServiceRun :: Event.logWarning (wsExcMsg m) ::
      loopTrace ms

/-- Representative config, with the values suggested by the specification. -/
def p0 : Port :=
  { name := "peer-ws", ip := "127.0.0.1", port := 6206,
    allow_admin := false, tls := "" }

/-! Lemmas about the retry loop. -/

theorem retryLoop_of_msgs (msgs : List String) (rest : List ServeOutcome) :
    retryLoop (msgs.map ServeOutcome.raise ++ ServeOutcome.ok :: rest)
      = some (loopTrace msgs) := by
  induction msgs with
  | nil => rfl
  | cons m ms ih => simp [retryLoop, loopTrace, ih]

theorem retryLoop_all_raise (msgs : List String) :
    retryLoop (msgs.map ServeOutcome.raise) = none := by
  induction msgs with
  | nil => rfl
  | cons m ms ih => simp [retryLoop, ih]

theorem retryLoop_some_shape (l : List ServeOutcome) (tr : List Event)
    (h : retryLoop l = some tr) :
    ∃ msgs rest, l = msgs.map ServeOutcome.raise ++ ServeOutcome.ok :: rest
      ∧ tr = loopTrace msgs := by
  induction l generalizing tr with
  | nil => simp [retryLoop] at h
  | cons o rest ih =>
    cases o with
    | ok =>
      refine ⟨[], rest, rfl, ?_⟩
      simp [retryLoop] at h
      simp [loopTrace, ← h]
    | raise m =>
      simp [retryLoop] at h
      obtain ⟨tr', h1, h2⟩ := h
      obtain ⟨ms, rest', hl, htr⟩ := ih tr' h1
      refine ⟨m :: ms, rest', ?_, ?_⟩
      · simp [hl]
      · simp [← h2, htr, loopTrace]

theorem retryLoop_isSome (l : List ServeOutcome) :
    (retryLoop l).isSome
      = l.any (fun o => decide (o = ServeOutcome.ok)) := by
  induction l with
  | nil => rfl
  | cons o rest ih =>
    cases o with
    | ok => simp [retryLoop]
    | raise m => simp [retryLoop, ih]

/-! Lemmas about the loop trace. -/

theorem loopTrace_events (ms : List String) :
    ∀ e ∈ loopTrace ms,
      e = Event.ioServiceRun ∨ ∃ m, e = Event.logWarning m := by
  induction ms with
  | nil =>
    intro e he
    simp [loopTrace] at he
    exact Or.inl he
  | cons m ms ih =>
    intro e he
    simp [loopTrace] at he
    rcases he with h | h | h
    · exact Or.inl h
    · exact Or.inr ⟨_, h⟩
    · exact ih e h

theorem warningMsgs_append (a b : List Event) :
    warningMsgs (a ++ b) = warningMsgs a ++ warningMsgs b := by
  induction a with
  | nil => rfl
  | cons ev a ih => cases ev <;> simp [warningMsgs, ih]

theorem warningMsgs_loopTrace (ms : List String) :
    warningMsgs (loopTrace ms) = ms.map wsExcMsg := by
  induction ms with
  | nil => rfl
  | cons m ms ih => simp [loopTrace, warningMsgs, ih]

theorem serveCallCount_loopTrace (ms : List String) :
    serveCallCount (loopTrace ms) = ms.length + 1 := by
  induction ms with
  | nil => rfl
  | cons m ms ih =>
    simp [loopTrace, serveCallCount, List.countP_cons, isServeCall] at ih ⊢
    omega

theorem stoppedCount_loopTrace (ms : List String) :
    stoppedCount (loopTrace ms) = 0 := by
  simp only [stoppedCount, List.countP_eq_zero]
  intro e he
  rcases loopTrace_events ms e he with h | ⟨m, h⟩ <;> simp [h]

theorem stopped_not_mem_loopTrace (ms : List String) :
    Event.stopped ∉ loopTrace ms := by
  intro h
  rcases loopTrace_events ms _ h with h' | ⟨m, h'⟩ <;> simp at h'

/-! Lemmas about the lock-depth scanner. -/

theorem checkDepthAux_append (pred : Event → Bool) (ok : Nat → Bool)
    (a b : List Event) (d : Nat) :
    checkDepthAux pred ok d (a ++ b)
      = (checkDepthAux pred ok d a
          && checkDepthAux pred ok (a.foldl lockStep d) b) := by
  induction a generalizing d with
  | nil => simp [checkDepthAux]
  | cons ev a ih => simp [checkDepthAux, ih, Bool.and_assoc]

theorem loopTrace_foldl (ms : List String) (d : Nat) :
    (loopTrace ms).foldl lockStep d = d := by
  induction ms generalizing d with
  | nil => rfl
  | cons m ms ih => simp [loopTrace, lockStep, ih]

theorem checkDepthAux_of_pred_false (pred : Event → Bool) (ok : Nat → Bool)
    (tr : List Event) (h : ∀ e ∈ tr, pred e = false) :
    ∀ d, checkDepthAux pred ok d tr = true := by
  induction tr with
  | nil => intro d; rfl
  | cons ev tr ih =>
    intro d
    simp [checkDepthAux, h ev (by simp)]
    exact ih (fun e' he' => h e' (by simp [he'])) _

/-! Shapes of the possible results of run(). -/

/-- The trace of a run whose listen call returns cleanly. -/
def okTrace (p : Port) : List Event :=
  Event.logInfo (startupMsg p) :: Event.lockAcquire ::
    Event.endpointWrite true :: Event.lockRelease ::
    Event.listenCall p.ip p.port :: teardownEvents

/-- The trace of a run whose listen call raises with message m and whose
retry loop then sees the raising messages ms before a clean return. -/
def raiseTrace (p : Port) (m : String) (ms : List String) : List Event :=
  Event.logInfo (startupMsg p) :: Event.lockAcquire ::
    Event.endpointWrite true :: Event.lockRelease ::
    Event.listenCall p.ip p.port :: Event.logWarning (wsExcMsg m) ::
    (loopTrace ms ++ teardownEvents)

theorem wsRun_ok (p : Port) (flag : Bool) (rest : List ServeOutcome) :
    wsRun p false false (ServeOutcome.ok :: rest) flag
      = some (okTrace p, RunExit.returned) := rfl

theorem wsRun_raise (p : Port) (flag : Bool) (m : String) (ms : List String)
    (rest : List ServeOutcome) :
    wsRun p false false
        (ServeOutcome.raise m ::
          (ms.map ServeOutcome.raise ++ ServeOutcome.ok :: rest)) flag
      = some (raiseTrace p m ms, RunExit.returned) := by
  simp [wsRun, retryLoop_of_msgs, raiseTrace]

theorem wsRun_raise_loop (p : Port) (flag : Bool) (m : String)
    (rest : List ServeOutcome) :
    wsRun p false false (ServeOutcome.raise m :: rest) flag
      = (retryLoop rest).map fun tr =>
        (Event.logInfo (startupMsg p) :: Event.lockAcquire ::
          Event.endpointWrite true :: Event.lockRelease ::
          Event.listenCall p.ip p.port :: Event.logWarning (wsExcMsg m) ::
          (tr ++ teardownEvents), RunExit.returned) := rfl

/-- Case analysis on any terminating result of run(). -/
theorem wsRun_some_shape (p : Port) (hr ec flag : Bool)
    (oc : List ServeOutcome) (tr : List Event) (ex : RunExit)
    (h : wsRun p hr ec oc flag = some (tr, ex)) :
    (ex = RunExit.escaped ∧ hr = true
        ∧ tr = [Event.logInfo (startupMsg p)])
    ∨ (ex = RunExit.escaped ∧ hr = false ∧ ec = true
        ∧ tr = [Event.logInfo (startupMsg p), Event.lockAcquire,
            Event.lockRelease])
    ∨ (ex = RunExit.returned ∧ hr = false ∧ ec = false
        ∧ ((∃ rest, oc = ServeOutcome.ok :: rest ∧ tr = okTrace p)
          ∨ (∃ m ms rest,
              oc = ServeOutcome.raise m ::
                (ms.map ServeOutcome.raise ++ ServeOutcome.ok :: rest)
              ∧ tr = raiseTrace p m ms))) := by
  cases hr with
  | true =>
    simp [wsRun] at h
    exact Or.inl ⟨h.2.symm, rfl, h.1.symm⟩
  | false =>
    cases ec with
    | true =>
      simp [wsRun] at h
      exact Or.inr (Or.inl ⟨h.2.symm, rfl, rfl, h.1.symm⟩)
    | false =>
      cases oc with
      | nil => simp [wsRun] at h
      | cons o rest =>
        cases o with
        | ok =>
          rw [wsRun_ok] at h
          obtain ⟨h1, h2⟩ := Prod.mk.injEq .. ▸ Option.some.injEq .. ▸ h
          exact Or.inr (Or.inr ⟨h2.symm, rfl, rfl,
            Or.inl ⟨rest, rfl, h1.symm⟩⟩)
        | raise m =>
          rw [wsRun_raise_loop] at h
          cases hre : retryLoop rest with
          | none => rw [hre] at h; simp at h
          | some tr' =>
            rw [hre] at h
            obtain ⟨ht, hx⟩ := Prod.mk.inj (Option.some.inj h)
            obtain ⟨ms, rest', hl, htr⟩ := retryLoop_some_shape rest tr' hre
            refine Or.inr (Or.inr ⟨hx.symm, rfl, rfl,
              Or.inr ⟨m, ms, rest', ?_, ?_⟩⟩)
            · rw [hl]
            · rw [← ht, htr]; rfl

/-! Counting facts about the two terminating run traces. -/

theorem stoppedCount_append (a b : List Event) :
    stoppedCount (a ++ b) = stoppedCount a + stoppedCount b := by
  simp [stoppedCount, List.countP_append]

theorem serveCallCount_append (a b : List Event) :
    serveCallCount (a ++ b) = serveCallCount a + serveCallCount b := by
  simp [serveCallCount, List.countP_append]

theorem raiseTrace_split (p : Port) (m : String) (ms : List String) :
    raiseTrace p m ms
      = [Event.logInfo (startupMsg p), Event.lockAcquire,
          Event.endpointWrite true, Event.lockRelease,
          Event.listenCall p.ip p.port, Event.logWarning (wsExcMsg m)]
        ++ (loopTrace ms ++ teardownEvents) := rfl

theorem stoppedCount_okTrace (p : Port) : stoppedCount (okTrace p) = 1 := rfl

theorem stoppedCount_raiseTrace (p : Port) (m : String) (ms : List String) :
    stoppedCount (raiseTrace p m ms) = 1 := by
  rw [raiseTrace_split, stoppedCount_append, stoppedCount_append,
    stoppedCount_loopTrace]
  rfl

theorem serveCallCount_okTrace (p : Port) :
    serveCallCount (okTrace p) = 1 := rfl

theorem serveCallCount_raiseTrace (p : Port) (m : String) (ms : List String) :
    serveCallCount (raiseTrace p m ms) = ms.length + 2 := by
  rw [raiseTrace_split, serveCallCount_append, serveCallCount_append,
    serveCallCount_loopTrace]
  have h6 : serveCallCount
      [Event.logInfo (startupMsg p), Event.lockAcquire,
        Event.endpointWrite true, Event.lockRelease,
        Event.listenCall p.ip p.port, Event.logWarning (wsExcMsg m)] = 1 := rfl
  have htd : serveCallCount teardownEvents = 0 := rfl
  omega

theorem warningMsgs_okTrace (p : Port) : warningMsgs (okTrace p) = [] := rfl

theorem warningMsgs_raiseTrace (p : Port) (m : String) (ms : List String) :
    warningMsgs (raiseTrace p m ms) = wsExcMsg m :: ms.map wsExcMsg := by
  have h : warningMsgs (raiseTrace p m ms)
      = wsExcMsg m :: warningMsgs (loopTrace ms ++ teardownEvents) := rfl
  rw [h, warningMsgs_append, warningMsgs_loopTrace]
  have htd : warningMsgs teardownEvents = [] := rfl
  simp [htd]

theorem stoppedCount_onStop (b : Bool) : stoppedCount (wsOnStop b) = 0 := by
  cases b <;> rfl

/-- Any terminating run() emits at most one stopped acknowledgment. -/
theorem stoppedCount_wsRun (p : Port) (hr ec flag : Bool)
    (oc : List ServeOutcome) (tr : List Event) (ex : RunExit)
    (h : wsRun p hr ec oc flag = some (tr, ex)) : stoppedCount tr ≤ 1 := by
  rcases wsRun_some_shape p hr ec flag oc tr ex h with
    ⟨_, _, htr⟩ | ⟨_, _, _, htr⟩ | ⟨_, _, _, hsh⟩
  · subst htr
    have h0 : stoppedCount [Event.logInfo (startupMsg p)] = 0 := rfl
    omega
  · subst htr
    have h0 : stoppedCount [Event.logInfo (startupMsg p), Event.lockAcquire,
      Event.lockRelease] = 0 := rfl
    omega
  · rcases hsh with ⟨rest, _, htr⟩ | ⟨m, ms, rest, _, htr⟩
    · subst htr
      have h1 := stoppedCount_okTrace p
      omega
    · subst htr
      have h1 := stoppedCount_raiseTrace p m ms
      omega

theorem wsRun_isSome (p : Port) (flag : Bool) (oc : List ServeOutcome) :
    (wsRun p false false oc flag).isSome
      = oc.any (fun o => decide (o = ServeOutcome.ok)) := by
  cases oc with
  | nil => rfl
  | cons o rest =>
    cases o with
    | ok => rfl
    | raise m =>
      rw [wsRun_raise_loop]
      simp [retryLoop_isSome]

/-! Lock-discipline facts about the retry-loop trace. -/

theorem serveOutside_loopTrace (ms : List String) :
    checkDepthAux isServeCall (fun d => decide (d = 0)) 0 (loopTrace ms)
      = true := by
  induction ms with
  | nil => rfl
  | cons m ms ih =>
    simpa [loopTrace, checkDepthAux, lockStep, isServeCall] using ih

theorem writesLocked_loop_td (ms : List String) :
    checkDepthAux writesEndpoint (fun d => decide (0 < d)) 0
      (loopTrace ms ++ teardownEvents) = true := by
  have hfalse : ∀ e ∈ loopTrace ms, writesEndpoint e = false := by
    intro e he
    rcases loopTrace_events ms e he with h | ⟨m', h⟩ <;> simp [h, writesEndpoint]
  rw [checkDepthAux_append, loopTrace_foldl,
    checkDepthAux_of_pred_false _ _ _ hfalse 0]
  rfl

theorem nonServe_loop_td (ms : List String) :
    checkDepthAux (fun e => accessesEndpoint e && !isServeCall e)
      (fun d => decide (0 < d)) 0 (loopTrace ms ++ teardownEvents) = true := by
  have hfalse : ∀ e ∈ loopTrace ms,
      (accessesEndpoint e && !isServeCall e) = false := by
    intro e he
    rcases loopTrace_events ms e he with h | ⟨m', h⟩ <;>
      simp [h, accessesEndpoint, readsEndpoint, writesEndpoint, isServeCall]
  rw [checkDepthAux_append, loopTrace_foldl,
    checkDepthAux_of_pred_false _ _ _ hfalse 0]
  rfl

theorem serveOutside_loop_td (ms : List String) :
    checkDepthAux isServeCall (fun d => decide (d = 0)) 0
      (loopTrace ms ++ teardownEvents) = true := by
  rw [checkDepthAux_append, loopTrace_foldl, serveOutside_loopTrace]
  rfl

/-! The claims. -/

/-- C1: when the blocking serve call raises, run() logs one warning per
failure carrying the failure message text and re-enters the blocking serve
call; given outcomes whose N-th element is the first non-raising one, run()
returns with exactly N retries (N+1 serve calls), the N warning messages in
order, and proceeds to teardown; and when every outcome raises, the retry
loop never exits. -/
theorem wsdoor_c1 (p : Port) (flag : Bool) (msgs : List String)
    (rest : List ServeOutcome) :
    (∃ tr, wsRun p false false
          (msgs.map ServeOutcome.raise ++ ServeOutcome.ok :: rest) flag
        = some (tr, RunExit.returned)
      ∧ warningMsgs tr = msgs.map wsExcMsg
      ∧ serveCallCount tr = msgs.length + 1
      ∧ ∃ pre, tr = pre ++ teardownEvents)
    ∧ wsRun p false false (msgs.map ServeOutcome.raise) flag = none := by
  constructor
  · cases msgs with
    | nil =>
      refine ⟨okTrace p, wsRun_ok p flag rest, warningMsgs_okTrace p,
        serveCallCount_okTrace p,
        ⟨[Event.logInfo (startupMsg p), Event.lockAcquire,
          Event.endpointWrite true, Event.lockRelease,
          Event.listenCall p.ip p.port], rfl⟩⟩
    | cons m ms =>
      refine ⟨raiseTrace p m ms, wsRun_raise p flag m ms rest, ?_, ?_, ?_⟩
      · rw [warningMsgs_raiseTrace]
        rfl
      · rw [serveCallCount_raiseTrace]
        simp
      · exact ⟨Event.logInfo (startupMsg p) :: Event.lockAcquire ::
          Event.endpointWrite true :: Event.lockRelease ::
          Event.listenCall p.ip p.port :: Event.logWarning (wsExcMsg m) ::
          loopTrace ms, by simp [raiseTrace]⟩
  · cases msgs with
    | nil => rfl
    | cons m ms =>
      simp only [List.map_cons]
      rw [wsRun_raise_loop, retryLoop_all_raise]
      rfl

/-- C2 counterexample: a run whose listen call returns cleanly contains an
access of m_endpoint (the dereference at the blocking serve call, line 94)
performed while the lock is not held, so not every read of m_endpoint in
run() occurs under m_endpointLock. -/
theorem wsdoor_c2_counterexample :
    (wsRun p0 false false [ServeOutcome.ok] false).map
        (fun r => accessesLocked r.1)
      = some false := rfl

/-- C2 amended: every write of m_endpoint in run() and every access of
m_endpoint other than the blocking serve calls occur under m_endpointLock,
the serve-call dereferences of m_endpoint occur with the lock not held, and
every access of m_endpoint in onStop occurs under the lock. -/
theorem wsdoor_c2_amended (p : Port) (hr ec flag b : Bool)
    (oc : List ServeOutcome) :
    (wsRun p hr ec oc flag).all
        (fun r => writesLocked r.1 && (nonServeAccessesLocked r.1
          && serveCallsOutsideLock r.1)) = true
    ∧ accessesLocked (wsOnStop b) = true := by
  constructor
  · cases hw : wsRun p hr ec oc flag with
    | none => rfl
    | some r =>
      obtain ⟨tr, ex⟩ := r
      rcases wsRun_some_shape p hr ec flag oc tr ex hw with
        ⟨_, _, htr⟩ | ⟨_, _, _, htr⟩ | ⟨_, _, _, hsh⟩
      · subst htr; rfl
      · subst htr; rfl
      · rcases hsh with ⟨rest, _, htr⟩ | ⟨m, ms, rest, _, htr⟩
        · subst htr; rfl
        · subst htr
          have h1 : writesLocked (raiseTrace p m ms) = true :=
            writesLocked_loop_td ms
          have h2 : nonServeAccessesLocked (raiseTrace p m ms) = true :=
            nonServe_loop_td ms
          have h3 : serveCallsOutsideLock (raiseTrace p m ms) = true :=
            serveOutside_loop_td ms
          show (writesLocked (raiseTrace p m ms)
            && (nonServeAccessesLocked (raiseTrace p m ms)
              && serveCallsOutsideLock (raiseTrace p m ms))) = true
          rw [h1, h2, h3]
          rfl
  · cases b <;> rfl

/-- C3: evaluation of the code at the failing inputs. When the handler
construction of lines 81-83 raises, or the endpoint construction of line 88
raises, the exception escapes run() and the trace contains no stopped
acknowledgment at all, while the claim requires exactly one. -/
theorem wsdoor_c3_code :
    (wsRun p0 true false [] false).map (fun r => (stoppedCount r.1, r.2))
      = some (0, RunExit.escaped)
    ∧ (wsRun p0 false true [] false).map (fun r => (stoppedCount r.1, r.2))
      = some (0, RunExit.escaped) := by
  exact ⟨rfl, rfl⟩

/-- C4: every run() that reaches a clean return from the blocking serve
call ends with the teardown suffix: the handle is cleared (under the lock)
and stopped() is emitted exactly once, strictly after the clear. -/
theorem wsdoor_c4 (p : Port) (hr ec flag : Bool) (oc : List ServeOutcome)
    (tr : List Event)
    (h : wsRun p hr ec oc flag = some (tr, RunExit.returned)) :
    ∃ pre, tr = pre ++ teardownEvents ∧ Event.stopped ∉ pre
      ∧ stoppedCount tr = 1 := by
  rcases wsRun_some_shape p hr ec flag oc tr RunExit.returned h with
    ⟨hex, _, _⟩ | ⟨hex, _, _, _⟩ | ⟨_, _, _, hsh⟩
  · exact absurd hex (by simp)
  · exact absurd hex (by simp)
  · rcases hsh with ⟨rest, _, htr⟩ | ⟨m, ms, rest, _, htr⟩
    · subst htr
      refine ⟨[Event.logInfo (startupMsg p), Event.lockAcquire,
        Event.endpointWrite true, Event.lockRelease,
        Event.listenCall p.ip p.port], rfl, ?_, stoppedCount_okTrace p⟩
      simp
    · subst htr
      refine ⟨Event.logInfo (startupMsg p) :: Event.lockAcquire ::
        Event.endpointWrite true :: Event.lockRelease ::
        Event.listenCall p.ip p.port :: Event.logWarning (wsExcMsg m) ::
        loopTrace ms, by simp [raiseTrace], ?_,
        stoppedCount_raiseTrace p m ms⟩
      intro hmem
      simp at hmem
      exact stopped_not_mem_loopTrace ms hmem

theorem wsdoor_c4_witness :
    ∃ pre, okTrace p0 = pre ++ teardownEvents ∧ Event.stopped ∉ pre
      ∧ stoppedCount (okTrace p0) = 1 :=
  wsdoor_c4 p0 false false false [ServeOutcome.ok] (okTrace p0) rfl

/-- C5: over a whole lifetime consisting of one terminating run() and any
number of onStop() invocations, at most one stopped acknowledgment is ever
emitted, and the onStop() invocations themselves emit none. -/
theorem wsdoor_c5 (p : Port) (hr ec flag : Bool) (oc : List ServeOutcome)
    (stops : List Bool) (tr : List Event) (ex : RunExit)
    (h : wsRun p hr ec oc flag = some (tr, ex)) :
    stoppedCount (tr ++ (stops.map wsOnStop).flatten) ≤ 1
    ∧ stoppedCount ((stops.map wsOnStop).flatten) = 0 := by
  have hjoin : stoppedCount ((stops.map wsOnStop).flatten) = 0 := by
    induction stops with
    | nil => rfl
    | cons b bs ih =>
      simp only [List.map_cons, List.flatten_cons, stoppedCount_append,
        stoppedCount_onStop, ih]
  refine ⟨?_, hjoin⟩
  rw [stoppedCount_append, hjoin]
  have := stoppedCount_wsRun p hr ec flag oc tr ex h
  omega

theorem wsdoor_c5_witness :
    stoppedCount (okTrace p0 ++ ([true, false].map wsOnStop).flatten) ≤ 1
    ∧ stoppedCount (([true, false].map wsOnStop).flatten) = 0 :=
  wsdoor_c5 p0 false false false [ServeOutcome.ok] [true, false]
    (okTrace p0) RunExit.returned rfl

/-- C6: onStop copies the endpoint reference under the lock and asks the
endpoint to stop if and only if that copy is non-null; it emits no stopped
acknowledgment itself; and run() never consults the thread-should-exit
flag set by onStop: its result is unchanged by the flag, and its
termination is decided solely by some blocking serve call returning
cleanly. -/
theorem wsdoor_c6 (p : Port) (hr ec : Bool) (oc : List ServeOutcome)
    (flag flag' b : Bool) :
    wsRun p hr ec oc flag = wsRun p hr ec oc flag'
    ∧ (wsRun p false false oc flag).isSome
        = oc.any (fun o => decide (o = ServeOutcome.ok))
    ∧ (Event.endpointStopCall ∈ wsOnStop b ↔ b = true)
    ∧ Event.endpointRead ∈ wsOnStop b
    ∧ stoppedCount (wsOnStop b) = 0 := by
  refine ⟨rfl, wsRun_isSome p flag oc, ?_, ?_, stoppedCount_onStop b⟩
  · cases b <;> simp [wsOnStop]
  · cases b <;> simp [wsOnStop]

/-- C7: make_WSDoor returns the constructed listener on success and absent
on any construction failure; no fault crosses the factory boundary. -/
theorem wsdoor_c7 (r : Except String WSDoorImp) :
    (∀ d, r = Except.ok d → make_WSDoor r = some d)
    ∧ (∀ s, r = Except.error s → make_WSDoor r = none)
    ∧ ((make_WSDoor r).isSome ↔ ∃ d, r = Except.ok d) := by
  refine ⟨?_, ?_, ?_⟩
  · intro d hd; subst hd; rfl
  · intro s hs; subst hs; rfl
  · cases r with
    | ok d => simp [make_WSDoor]
    | error s => simp [make_WSDoor]

theorem wsdoor_c7_witness :
    make_WSDoor (Except.error "bad alloc") = none :=
  (wsdoor_c7 (Except.error "bad alloc")).2.1 "bad alloc" rfl

/-- C8: the startup diagnostic is determined by exactly the name, address,
port and admin flag of the config (other config fields do not affect it),
it distinguishes admin from non-admin, it is the first event of every
terminating run(), and it has no control effect: the non-diagnostic events
and the exit of run() agree for any two configs with the same address and
port. -/
theorem wsdoor_c8 (p q : Port) (hr ec flag : Bool) (oc : List ServeOutcome) :
    (p.name = q.name → p.ip = q.ip → p.port = q.port →
        p.allow_admin = q.allow_admin → startupMsg p = startupMsg q)
    ∧ (p.name = q.name → p.ip = q.ip → p.port = q.port →
        p.allow_admin ≠ q.allow_admin → startupMsg p ≠ startupMsg q)
    ∧ (∀ r, wsRun p hr ec oc flag = some r →
        r.1.head? = some (Event.logInfo (startupMsg p)))
    ∧ (p.ip = q.ip → p.port = q.port →
        (wsRun p hr ec oc flag).map
            (fun r => (r.1.filter (fun e => !isLog e), r.2))
          = (wsRun q hr ec oc flag).map
            (fun r => (r.1.filter (fun e => !isLog e), r.2))) := by
  refine ⟨?_, ?_, ?_, ?_⟩
  · intro h1 h2 h3 h4
    simp [startupMsg, h1, h2, h3, h4]
  · intro h1 h2 h3 hne heq
    simp only [startupMsg] at heq
    rw [h1, h2, h3] at heq
    cases hpa : p.allow_admin <;> cases hqa : q.allow_admin
    · exact hne (hpa.trans hqa.symm)
    · rw [hpa, hqa] at heq
      simp only [Bool.cond_false, Bool.cond_true] at heq
      have hlen := congrArg String.length heq
      simp only [String.length_append] at hlen
      have h7 : "(Admin)".length = 7 := rfl
      have h0 : "".length = 0 := rfl
      omega
    · rw [hpa, hqa] at heq
      simp only [Bool.cond_false, Bool.cond_true] at heq
      have hlen := congrArg String.length heq
      simp only [String.length_append] at hlen
      have h7 : "(Admin)".length = 7 := rfl
      have h0 : "".length = 0 := rfl
      omega
    · exact hne (hpa.trans hqa.symm)
  · intro r hrw
    obtain ⟨tr, ex⟩ := r
    rcases wsRun_some_shape p hr ec flag oc tr ex hrw with
      ⟨_, _, htr⟩ | ⟨_, _, _, htr⟩ | ⟨_, _, _, hsh⟩
    · subst htr; rfl
    · subst htr; rfl
    · rcases hsh with ⟨rest, _, htr⟩ | ⟨m, ms, rest, _, htr⟩ <;> subst htr <;> rfl
  · intro hip hport
    cases hr with
    | true => rfl
    | false =>
      cases ec with
      | true => rfl
      | false =>
        cases oc with
        | nil => rfl
        | cons o rest =>
          cases o with
          | ok =>
            rw [wsRun_ok, wsRun_ok]
            simp [okTrace, teardownEvents, isLog, hip, hport]
          | raise m =>
            rw [wsRun_raise_loop, wsRun_raise_loop]
            cases hre : retryLoop rest with
            | none => rfl
            | some tr' =>
              simp [teardownEvents, isLog, hip, hport]

theorem wsdoor_c8_witness :
    startupMsg { p0 with allow_admin := true } ≠ startupMsg p0 :=
  (wsdoor_c8 { p0 with allow_admin := true } p0 false false false []).2.1
    rfl rfl rfl (by decide)

/-- C9: onStop never holds the endpoint lock while invoking the endpoint
stop call: the reference is copied under the lock, the lock is released,
and only then is stop() invoked on the copy. -/
theorem wsdoor_c9 (b : Bool) :
    stopCallOutsideLock (wsOnStop b) = true
    ∧ accessesLocked (wsOnStop b) = true
    ∧ (b = true → ∃ i j : Nat, i < j
        ∧ (wsOnStop b)[i]? = some Event.lockRelease
        ∧ (wsOnStop b)[j]? = some Event.endpointStopCall) := by
  refine ⟨by cases b <;> rfl, by cases b <;> rfl, ?_⟩
  intro hb
  subst hb
  exact ⟨2, 3, by decide, rfl, rfl⟩

theorem wsdoor_c9_witness :
    ∃ i j : Nat, i < j ∧ (wsOnStop true)[i]? = some Event.lockRelease
      ∧ (wsOnStop true)[j]? = some Event.endpointStopCall :=
  (wsdoor_c9 true).2.2 rfl

/-- C10: onStop signals the execution thread to exit exactly once and as
its last action, whether or not the endpoint handle is null; the
null-handle case skips only the endpoint stop call. -/
theorem wsdoor_c10 (b : Bool) :
    (wsOnStop b).countP
        (fun e => decide (e = Event.signalThreadShouldExit)) = 1
    ∧ (wsOnStop b).getLast? = some Event.signalThreadShouldExit
    ∧ wsOnStop false
        = (wsOnStop true).filter
            (fun e => !(decide (e = Event.endpointStopCall))) := by
  cases b <;> exact ⟨by decide, by decide, by decide⟩
